import Mathlib

/-!
Shallow embedding of the `ovis_control` hardware interface
(`src/ovis_control/src/ovis_control.cpp`): the lifecycle callbacks,
the cyclic read/write transfer, the interface export, and the
double/float angle marshalling at the Kinova SDK boundary.

Modelling conventions:
* C++ `double` values are modelled by `F64`: either `nan` ("unknown")
  or an exact rational.  C++ `float` values are `F32` likewise.
* The narrowing cast `(float)x` is modelled by rounding the rational to
  the nearest value with a 24-bit significand (`f32round`); this is
  faithful to IEEE-754 binary32 narrowing for values in the binary32
  normal range (ties are resolved upward rather than to even, which does
  not affect any half-ulp bound).  The widening cast `(double)x` is exact.
* Fallible / abnormal C++ control flow is modelled with `Option`:
  `none` stands for an outcome with no defined result (a null-pointer
  dereference, or an uncaught `std::out_of_range` from `vector::at`),
  while `some` carries the returned code and the updated object.
* The `kinova::KinovaComm` session object is opaque; a session is
  identified by a natural number, and the system-level model tracks the
  set of live (allocated, not yet deleted) sessions.
-/

namespace OvisControl

/-- A C++ `double`: not-a-number ("unknown") or an exact rational value. -/
inductive F64 where
  | nan : F64
  | fin : ℚ → F64
deriving DecidableEq

/-- A C++ `float`: not-a-number or an exact rational value
(understood to be binary32-representable when produced by `f64_to_f32`). -/
inductive F32 where
  | nan : F32
  | fin : ℚ → F32
deriving DecidableEq

/-- Round a rational to the nearest number with a 24-bit significand:
the model of IEEE-754 binary32 rounding used by the C++ narrowing cast
`(float)x` for arguments in the binary32 normal range. -/
def f32round (q : ℚ) : ℚ :=
  if q = 0 then 0
  else (round (q / 2 ^ (Int.log 2 |q| - 23)) : ℚ) * 2 ^ (Int.log 2 |q| - 23)

/-- The narrowing cast `(float)x` performed in `OvisHWInterface::write`. -/
def f64_to_f32 : F64 → F32
  | F64.nan => F32.nan
  | F64.fin q => F32.fin (f32round q)

/-- The widening cast `(double)x` performed in `OvisHWInterface::read`;
exact. -/
def f32_to_f64 : F32 → F64
  | F32.nan => F64.nan
  | F32.fin q => F64.fin q

/-- The slot is a number in the binary32 normal range (or zero): the
domain on which `f32round` is a faithful model of the C++ cast. -/
def F64.inRange32 : F64 → Bool
  | F64.nan => false
  | F64.fin q => q = 0 ∨ (2 ^ (-126 : ℤ) ≤ |q| ∧ |q| ≤ 2 ^ (128 : ℤ))

/-- `a` equals `b` within the single-precision rounding tolerance
(relative error at most `2 ^ (-24)`, a half-ulp bound). -/
def F64.approx32 : F64 → F64 → Prop
  | F64.fin p, F64.fin q => |p - q| ≤ 2 ^ (-24 : ℤ) * |q|
  | F64.nan, F64.nan => True
  | _, _ => False

/-- Modelled from the spec: the Native Angle Record `kinova::KinovaAngles`
(declared by the vendor SDK / the missing header) is a fixed 6-slot value
type, one slot per actuator, indexed both by name and by position. -/
structure KinovaAngles where
  Actuator1 : F32
  Actuator2 : F32
  Actuator3 : F32
  Actuator4 : F32
  Actuator5 : F32
  Actuator6 : F32
deriving DecidableEq

/-- Positional read access `angles[i]` of the Native Angle Record
(slot `i` is actuator `i + 1`; positions past 5 are outside the record's
contract and return an arbitrary value, never exercised under the 6-joint
assumption). -/
def KinovaAngles.get (a : KinovaAngles) : Nat → F32
  | 0 => a.Actuator1
  | 1 => a.Actuator2
  | 2 => a.Actuator3
  | 3 => a.Actuator4
  | 4 => a.Actuator5
  | 5 => a.Actuator6
  | _ + 6 => F32.nan

/-- Positional write access `angles[i] = v` of the Native Angle Record. -/
def KinovaAngles.set (a : KinovaAngles) (i : Nat) (v : F32) : KinovaAngles :=
  match i with
  | 0 => { a with Actuator1 := v }
  | 1 => { a with Actuator2 := v }
  | 2 => { a with Actuator3 := v }
  | 3 => { a with Actuator4 := v }
  | 4 => { a with Actuator5 := v }
  | 5 => { a with Actuator6 := v }
  | _ + 6 => a

/-- Modelled from the spec: a freshly default-constructed
`kinova::KinovaAngles` record (`kinova::KinovaAngles angles;`), never
persisted, constructed anew each cycle.  The contents of slots that are
not subsequently assigned are not specified; theorems that depend on the
initial record quantify over it instead of using this value. -/
def freshAngles : KinovaAngles :=
  ⟨F32.nan, F32.nan, F32.nan, F32.nan, F32.nan, F32.nan⟩

/-- Return code of the per-cycle `read`/`write` operations
(`hardware_interface::return_type`). -/
inductive return_type where
  | OK : return_type
  | ERROR : return_type
deriving DecidableEq

/-- Return code of the lifecycle callbacks
(`hardware_interface::CallbackReturn`). -/
inductive CallbackReturn where
  | SUCCESS : CallbackReturn
  | ERROR : CallbackReturn
deriving DecidableEq

/-- The state of an `OvisHWInterface` object: the joint names from
`info_.joints`, the State Buffer `hw_states_`, the Command Buffer
`hw_commands_`, and the nullable owned session pointer `comm`
(a live session is identified by a natural number; `none` is `nullptr`). -/
structure OvisHWInterface where
  joints : List String
  hw_states_ : List F64
  hw_commands_ : List F64
  comm : Option ℕ
deriving DecidableEq

/-- `std::vector::resize (n, v)`: truncate to `n` elements, or extend
with copies of `v`. -/
def listResize (l : List α) (n : Nat) (v : α) : List α :=
  if n ≤ l.length then l.take n
  else l ++ List.replicate (n - l.length) v

/-- `OvisHWInterface::on_init`.  `baseOk` is the outcome of the external
base-class check `SystemInterface::on_init (info)` (a black box); on its
failure the callback returns `ERROR` with no further effect, otherwise
both buffers are resized to the joint count, filled with NaN. -/
def on_init (baseOk : Bool) (jointNames : List String) (o : OvisHWInterface) :
    CallbackReturn × OvisHWInterface :=
  if baseOk then
    (CallbackReturn.SUCCESS,
      { o with
        joints := jointNames
        hw_states_ := listResize o.hw_states_ jointNames.length F64.nan
        hw_commands_ := listResize o.hw_commands_ jointNames.length F64.nan })
  else (CallbackReturn.ERROR, o)

/-- `OvisHWInterface::on_configure`: no effect, always succeeds. -/
def on_configure (o : OvisHWInterface) : CallbackReturn × OvisHWInterface :=
  (CallbackReturn.SUCCESS, o)

/-- The string constant `hardware_interface::HW_IF_POSITION`. -/
def HW_IF_POSITION : String := "position"

/-- Default joint name, used only as the (never exercised) fallback of
in-bounds list indexing. -/
def noName : String := ""

/-- A `hardware_interface::StateInterface`: a named read-only handle
tagged with an interface name and bound to slot `slot` of the State
Buffer (the constructor argument `&hw_states_[i]`). -/
structure StateInterface where
  name : String
  interface_name : String
  slot : ℕ
deriving DecidableEq

/-- A `hardware_interface::CommandInterface`: a named writable handle
tagged with an interface name and bound to slot `slot` of the Command
Buffer (the constructor argument `&hw_commands_[i]`). -/
structure CommandInterface where
  name : String
  interface_name : String
  slot : ℕ
deriving DecidableEq

/-- `OvisHWInterface::export_state_interfaces`: one handle per joint,
named after the joint, tagged `HW_IF_POSITION`, bound to the joint's
State Buffer slot.  `none` models the undefined behaviour of
`hw_states_[i]` when the buffer is shorter than the joint list. -/
def export_state_interfaces (o : OvisHWInterface) : Option (List StateInterface) :=
  if o.joints.length ≤ o.hw_states_.length then
    some ((List.range o.joints.length).map
      (fun i => ⟨o.joints.getD i noName, HW_IF_POSITION, i⟩))
  else none

/-- `OvisHWInterface::export_command_interfaces`: one handle per joint,
named after the joint, tagged `HW_IF_POSITION`, bound to the joint's
Command Buffer slot. -/
def export_command_interfaces (o : OvisHWInterface) : Option (List CommandInterface) :=
  if o.joints.length ≤ o.hw_commands_.length then
    some ((List.range o.joints.length).map
      (fun i => ⟨o.joints.getD i noName, HW_IF_POSITION, i⟩))
  else none

/-- `OvisHWInterface::on_activate`.  `ctor` is the outcome of
`new kinova::KinovaComm (mApiMutex, info_)`: `some s` is a freshly
allocated session `s`, `none` means the constructor threw
`KinovaCommException`.  On a throw the assignment to `comm` never
executes, so `comm` keeps its previous value and the callback returns
`ERROR`; on success `comm` is overwritten with the new session. -/
def on_activate (ctor : Option ℕ) (o : OvisHWInterface) :
    CallbackReturn × OvisHWInterface :=
  match ctor with
  | none => (CallbackReturn.ERROR, o)
  | some s => (CallbackReturn.SUCCESS, { o with comm := some s })

/-- `OvisHWInterface::on_deactivate`: delete the session if one exists,
null the pointer, and return success unconditionally. -/
def on_deactivate (o : OvisHWInterface) : CallbackReturn × OvisHWInterface :=
  (CallbackReturn.SUCCESS, { o with comm := none })

/-- `OvisHWInterface::~OvisHWInterface` (the destructor): same
release-if-present semantics as `on_deactivate`. -/
def destructor (o : OvisHWInterface) : OvisHWInterface :=
  { o with comm := none }

/-- The loop of `OvisHWInterface::read`: overwrite slots `i < n` of the
State Buffer with `(double) angles[i]`, leaving later slots unchanged
(`hw_states_.at (i) = (double) angles[i]` for `i` below the joint count). -/
def overwriteStates (a : KinovaAngles) : Nat → Nat → List F64 → List F64
  | _, _, [] => []
  | i, n, x :: xs =>
      (if i < n then f32_to_f64 (a.get i) else x) :: overwriteStates a (i + 1) n xs

/-- `OvisHWInterface::read`.  `dev` is the outcome of
`comm->getJointAngles (angles)`: `some a` delivers the device angles,
`none` means the call threw `KinovaCommException` (caught: the cycle
returns `ERROR` with the buffers untouched).  The overall result is
`none` when the body has no defined outcome: `comm` is null (the call
dereferences a null pointer), the copy loop indexes `hw_states_.at`
out of range (uncaught `std::out_of_range`), or it indexes the 6-slot
angle record past its last slot. -/
def read (dev : Option KinovaAngles) (o : OvisHWInterface) :
    Option (return_type × OvisHWInterface) :=
  match o.comm with
  | none => none
  | some _ =>
    match dev with
    | none => some (return_type.ERROR, o)
    | some a =>
      if o.joints.length ≤ o.hw_states_.length ∧ o.joints.length ≤ 6 then
        some (return_type.OK,
          { o with hw_states_ := overwriteStates a 0 o.joints.length o.hw_states_ })
      else none

/-- The loop of `OvisHWInterface::write`: `angles[i] = (float)
hw_commands_.at (i)` for `i` below the joint count, starting from the
default-constructed record. -/
def fillAngles (init : KinovaAngles) (cmds : List F64) (n : Nat) : KinovaAngles :=
  (List.range n).foldl (fun acc i => acc.set i (f64_to_f32 (cmds.getD i F64.nan))) init

/-- `OvisHWInterface::write`.  `init` is the default-constructed angle
record, `devOk` the outcome of `comm->setJointAngles (angles)` (`false`
means it threw `KinovaCommException`, caught and turned into `ERROR`).
On a defined outcome the result also carries the Native Angle Record
that was passed to the single `setJointAngles` call.  The result is
`none` when the body has no defined outcome: the fill loop indexes
`hw_commands_.at` out of range or the angle record past slot 5, or
`comm` is null (the call dereferences a null pointer). -/
def write (devOk : Bool) (init : KinovaAngles) (o : OvisHWInterface) :
    Option (return_type × OvisHWInterface × KinovaAngles) :=
  if o.joints.length ≤ o.hw_commands_.length ∧ o.joints.length ≤ 6 then
    let angles := fillAngles init o.hw_commands_ o.joints.length
    match o.comm with
    | none => none
    | some _ =>
      if devOk then some (return_type.OK, o, angles)
      else some (return_type.ERROR, o, angles)
  else none

/-- The Angle Vector Adapter, reading direction: widen each of the 6
slots of a Native Angle Record back to a double, in slot order (the
conversion performed by the `read` loop). -/
def from_native (a : KinovaAngles) : List F64 :=
  (List.range 6).map (fun i => f32_to_f64 (a.get i))

/-- The Angle Vector Adapter, writing direction: narrow each slot of a
6-element double sequence to a float, in slot order (the conversion
performed by the `write` loop on a fresh record). -/
def to_native (v : List F64) : KinovaAngles :=
  fillAngles freshAngles v 6

/-- The spec's lifecycle states: Unconfigured → Configured → Active,
with Inactive identified with Configured, and a terminal Finalized
state reachable from every state on teardown. -/
inductive Phase where
  | unconfigured : Phase
  | configured : Phase
  | active : Phase
  | finalized : Phase
deriving DecidableEq

/-- The system-level state: the lifecycle phase driven by the owning
framework, the hardware-interface object, and the set of live
(allocated, not yet deleted) Kinova sessions. -/
structure Sys where
  phase : Phase
  hw : OvisHWInterface
  live : Finset ℕ

/-- Deleting the owned session, if any (`if (comm != nullptr) delete
comm;`): the session leaves the live set. -/
def release : Option ℕ → Finset ℕ → Finset ℕ
  | none, l => l
  | some s, l => l.erase s

/-- The system state right after construction: Modelled from the spec,
the Session Handle starts null (the member declarations live in the
repository header that only the spec describes), the buffers are empty,
no session is live. -/
def Sys.start : Sys :=
  ⟨Phase.unconfigured, ⟨[], [], [], none⟩, ∅⟩

/-- The system-level effect of `deactivate ()`: run `on_deactivate`,
delete the owned session from the live set, move to Configured. -/
def deactivateS (s : Sys) : Sys :=
  ⟨Phase.configured, (on_deactivate s.hw).2, release s.hw.comm s.live⟩

/-- One step of the lifecycle / cycle machine, as driven by the owning
framework: initialization (with either base-check outcome), configure,
activation (the session constructor either yields a fresh session or
throws), deactivation (legal from Active, and also callable after a
failed activation), teardown from any state, and per-cycle read/write
while Active. -/
inductive Step : Sys → Sys → Prop where
  | init_ok (s : Sys) (jointNames : List String) (h : s.phase = Phase.unconfigured) :
      Step s ⟨Phase.unconfigured, (on_init true jointNames s.hw).2, s.live⟩
  | init_fail (s : Sys) (jointNames : List String) (h : s.phase = Phase.unconfigured) :
      Step s ⟨Phase.unconfigured, (on_init false jointNames s.hw).2, s.live⟩
  | configure (s : Sys) (h : s.phase = Phase.unconfigured) :
      Step s ⟨Phase.configured, (on_configure s.hw).2, s.live⟩
  | activate_ok (s : Sys) (id : ℕ) (h : s.phase = Phase.configured)
      (hfresh : id ∉ s.live) :
      Step s ⟨Phase.active, (on_activate (some id) s.hw).2, insert id s.live⟩
  | activate_fail (s : Sys) (h : s.phase = Phase.configured) :
      Step s ⟨Phase.configured, (on_activate none s.hw).2, s.live⟩
  | deactivate (s : Sys) (h : s.phase = Phase.active ∨ s.phase = Phase.configured) :
      Step s (deactivateS s)
  | destruct (s : Sys) (h : s.phase ≠ Phase.finalized) :
      Step s ⟨Phase.finalized, destructor s.hw, release s.hw.comm s.live⟩
  | readStep (s : Sys) (dev : Option KinovaAngles) (r : return_type × OvisHWInterface)
      (h : s.phase = Phase.active) (hr : read dev s.hw = some r) :
      Step s ⟨Phase.active, r.2, s.live⟩
  | writeStep (s : Sys) (devOk : Bool) (init : KinovaAngles)
      (r : return_type × OvisHWInterface × KinovaAngles)
      (h : s.phase = Phase.active) (hr : write devOk init s.hw = some r) :
      Step s ⟨Phase.active, r.2.1, s.live⟩

/-- A system state reachable from construction by lifecycle steps. -/
def Reachable (s : Sys) : Prop :=
  Relation.ReflTransGen Step Sys.start s

/-- The session/leak invariant: the live-session set always matches the
owned pointer — a non-null `comm` owns the single live session and only
occurs while Active, a null `comm` means nothing is live. -/
def SessionInv (s : Sys) : Prop :=
  (∀ i, s.hw.comm = some i → s.phase = Phase.active ∧ s.live = {i}) ∧
  (s.hw.comm = none → s.live = ∅)

/-- The six-joint scenario of the spec: joint set
`actuator_1 … actuator_6`. -/
def sixJoints : List String :=
  ["actuator_1", "actuator_2", "actuator_3", "actuator_4", "actuator_5", "actuator_6"]

/-- The six-joint scenario's Command Buffer `[0.1, 0.2, 0.3, 0.4, 0.5, 0.6]`
(the literals taken at their exact rational value). -/
def cmd6 : List F64 :=
  [F64.fin (1 / 10), F64.fin (1 / 5), F64.fin (3 / 10),
   F64.fin (2 / 5), F64.fin (1 / 2), F64.fin (3 / 5)]

/-- The six-joint object with an active session `0` and the scenario's
Command Buffer. -/
def objSix : OvisHWInterface :=
  ⟨sixJoints, List.replicate 6 F64.nan, cmd6, some 0⟩

/-- The six-joint object while no session exists (`comm == nullptr`). -/
def nullObj : OvisHWInterface :=
  ⟨sixJoints, List.replicate 6 F64.nan, cmd6, none⟩

/-- A concrete activated system state, reachable by
initialize; configure; activate. -/
def sysActive : Sys :=
  ⟨Phase.active,
   ⟨sixJoints, List.replicate 6 F64.nan, List.replicate 6 F64.nan, some 0⟩,
   insert 0 ∅⟩

/-- A concrete configured system state with no session, as left behind
by a failed activation attempt. -/
def sysConfigured : Sys :=
  ⟨Phase.configured, nullObj, ∅⟩

theorem listResize_nil (n : Nat) (v : α) :
    listResize ([] : List α) n v = List.replicate n v := by
  cases n with
  | zero => rfl
  | succ m => simp [listResize]

theorem comm_none_update (o : OvisHWInterface) (h : o.comm = none) :
    ({ o with comm := none } : OvisHWInterface) = o := by
  cases o
  simp only at h
  simp [h]

theorem length_overwriteStates (a : KinovaAngles) :
    ∀ (l : List F64) (i n : Nat), (overwriteStates a i n l).length = l.length := by
  intro l
  induction l with
  | nil => intro i n; rfl
  | cons x xs ih => intro i n; simp [overwriteStates, ih]

theorem getD_overwriteStates (a : KinovaAngles) :
    ∀ (l : List F64) (i k : Nat), i + k < n → k < l.length →
      (overwriteStates a i n l).getD k F64.nan = f32_to_f64 (a.get (i + k)) := by
  intro l
  induction l with
  | nil => intro i k _ hk; simp at hk
  | cons x xs ih =>
    intro i k hik hk
    cases k with
    | zero => simp [overwriteStates, Nat.lt_of_add_right_lt hik, if_pos]
    | succ m =>
      have h1 : (i + 1) + m < n := by omega
      have h2 : m < xs.length := by simpa using hk
      have := ih (i + 1) m h1 h2
      simpa [overwriteStates, Nat.add_comm, Nat.add_assoc, Nat.add_left_comm] using this

theorem getD_map_range (n i : Nat) (h : i < n) (f : Nat → α) (d : α) :
    ((List.range n).map f).getD i d = f i := by
  rw [List.getD_eq_getElem?_getD, List.getElem?_map, List.getElem?_range h]
  rfl

theorem write_inv (devOk : Bool) (init : KinovaAngles) (o : OvisHWInterface)
    (r : return_type × OvisHWInterface × KinovaAngles)
    (h : write devOk init o = some r) : r.2.1 = o := by
  obtain ⟨rt, o2, ang⟩ := r
  unfold write at h
  split at h
  · cases hc : o.comm with
    | none => rw [hc] at h; simp at h
    | some s =>
      rw [hc] at h
      cases devOk <;> simp_all
  · simp at h

theorem read_inv (dev : Option KinovaAngles) (o : OvisHWInterface)
    (r : return_type × OvisHWInterface)
    (h : read dev o = some r) :
    r.2.joints = o.joints ∧ r.2.hw_commands_ = o.hw_commands_ ∧ r.2.comm = o.comm := by
  obtain ⟨rt, o2⟩ := r
  unfold read at h
  cases hc : o.comm with
  | none => rw [hc] at h; simp at h
  | some s =>
    rw [hc] at h
    cases dev with
    | none =>
      simp at h
      obtain ⟨h1, h2⟩ := h
      subst h2
      exact ⟨rfl, rfl, hc⟩
    | some a =>
      simp at h
      obtain ⟨hcond, h1, h2⟩ := h
      subst h2
      exact ⟨rfl, rfl, rfl⟩

theorem on_init_comm (b : Bool) (jointNames : List String) (o : OvisHWInterface) :
    (on_init b jointNames o).2.comm = o.comm := by
  cases b <;> rfl

theorem sessionInv_step {s s' : Sys} (hstep : Step s s') (hinv : SessionInv s) :
    SessionInv s' := by
  cases hstep with
  | init_ok jointNames h =>
    refine ⟨fun i hi => ?_, fun hn => ?_⟩
    · rw [on_init_comm] at hi
      have ha := (hinv.1 i hi).1
      rw [h] at ha
      exact absurd ha (by simp)
    · rw [on_init_comm] at hn
      exact hinv.2 hn
  | init_fail jointNames h =>
    refine ⟨fun i hi => ?_, fun hn => ?_⟩
    · rw [on_init_comm] at hi
      have ha := (hinv.1 i hi).1
      rw [h] at ha
      exact absurd ha (by simp)
    · rw [on_init_comm] at hn
      exact hinv.2 hn
  | configure h =>
    refine ⟨fun i hi => ?_, fun hn => ?_⟩
    · have ha := (hinv.1 i hi).1
      rw [h] at ha
      exact absurd ha (by simp)
    · exact hinv.2 hn
  | activate_ok id h hfresh =>
    refine ⟨fun i hi => ?_, fun hn => ?_⟩
    · have hid : id = i := by simpa [on_activate] using hi
      subst hid
      have hnone : s.hw.comm = none := by
        cases hco : s.hw.comm with
        | none => rfl
        | some j =>
          have ha := (hinv.1 j hco).1
          rw [h] at ha
          exact absurd ha (by simp)
      have hl : s.live = ∅ := hinv.2 hnone
      refine ⟨rfl, ?_⟩
      rw [hl]
      rfl
    · exact absurd hn (by simp [on_activate])
  | activate_fail h =>
    refine ⟨fun i hi => ?_, fun hn => ?_⟩
    · have ha := (hinv.1 i hi).1
      rw [h] at ha
      exact absurd ha (by simp)
    · exact hinv.2 hn
  | deactivate h =>
    refine ⟨fun i hi => absurd hi (by simp [deactivateS, on_deactivate]), fun _ => ?_⟩
    show release s.hw.comm s.live = ∅
    cases hco : s.hw.comm with
    | none => exact hinv.2 hco
    | some j =>
      have hl := (hinv.1 j hco).2
      show s.live.erase j = ∅
      rw [hl]
      exact Finset.erase_singleton j
  | destruct h =>
    refine ⟨fun i hi => absurd hi (by simp [destructor]), fun _ => ?_⟩
    show release s.hw.comm s.live = ∅
    cases hco : s.hw.comm with
    | none => exact hinv.2 hco
    | some j =>
      have hl := (hinv.1 j hco).2
      show s.live.erase j = ∅
      rw [hl]
      exact Finset.erase_singleton j
  | readStep dev r h hr =>
    have hco := (read_inv dev s.hw r hr).2.2
    refine ⟨fun i hi => ?_, fun hn => ?_⟩
    · rw [hco] at hi
      exact ⟨rfl, (hinv.1 i hi).2⟩
    · rw [hco] at hn
      exact hinv.2 hn
  | writeStep devOk init r h hr =>
    have hco : r.2.1 = s.hw := write_inv devOk init s.hw r hr
    refine ⟨fun i hi => ?_, fun hn => ?_⟩
    · rw [hco] at hi
      exact ⟨rfl, (hinv.1 i hi).2⟩
    · rw [hco] at hn
      exact hinv.2 hn

theorem sessionInv_reachable (s : Sys) (h : Reachable s) : SessionInv s := by
  induction h with
  | refl => exact ⟨fun i hi => by simp [Sys.start] at hi, fun _ => rfl⟩
  | tail hsteps hstep ih => exact sessionInv_step hstep ih

theorem f32round_rel_error (q : ℚ) (hq : q ≠ 0) :
    |f32round q - q| ≤ 2 ^ (-24 : ℤ) * |q| := by
  have habs : (0 : ℚ) < |q| := abs_pos.mpr hq
  set e : ℤ := Int.log 2 |q| with he
  have hs : (0 : ℚ) < 2 ^ (e - 23) := zpow_pos (by norm_num) _
  have hsne : ((2 : ℚ) ^ (e - 23)) ≠ 0 := ne_of_gt hs
  have hfr : f32round q = (round (q / 2 ^ (e - 23)) : ℚ) * 2 ^ (e - 23) := by
    rw [f32round, if_neg hq]
  have key : |f32round q - q|
      = |(round (q / 2 ^ (e - 23)) : ℚ) - q / 2 ^ (e - 23)| * 2 ^ (e - 23) := by
    have hsplit : (round (q / 2 ^ (e - 23)) : ℚ) * 2 ^ (e - 23) - q
        = ((round (q / 2 ^ (e - 23)) : ℚ) - q / 2 ^ (e - 23)) * 2 ^ (e - 23) := by
      rw [sub_mul, div_mul_cancel₀ _ hsne]
    rw [hfr, hsplit, abs_mul, abs_of_pos hs]
  have hhalf : |(round (q / 2 ^ (e - 23)) : ℚ) - q / 2 ^ (e - 23)| ≤ 1 / 2 := by
    rw [abs_sub_comm]
    exact abs_sub_round _
  have hlog : (2 : ℚ) ^ e ≤ |q| := by
    have h2 := Int.zpow_log_le_self (b := 2) (R := ℚ) (by norm_num) habs
    rw [he]
    simpa using h2
  have hstep : (1 / 2 : ℚ) * 2 ^ (e - 23) = 2 ^ (-24 : ℤ) * 2 ^ e := by
    rw [← zpow_add₀ (by norm_num : (2 : ℚ) ≠ 0) (-24) e]
    have hone : (1 / 2 : ℚ) = 2 ^ (-1 : ℤ) := by norm_num
    rw [hone, ← zpow_add₀ (by norm_num : (2 : ℚ) ≠ 0) (-1) (e - 23)]
    congr 1
    omega
  calc |f32round q - q|
      = |(round (q / 2 ^ (e - 23)) : ℚ) - q / 2 ^ (e - 23)| * 2 ^ (e - 23) := key
    _ ≤ (1 / 2) * 2 ^ (e - 23) := mul_le_mul_of_nonneg_right hhalf (le_of_lt hs)
    _ = 2 ^ (-24 : ℤ) * 2 ^ e := hstep
    _ ≤ 2 ^ (-24 : ℤ) * |q| :=
        mul_le_mul_of_nonneg_left hlog (le_of_lt (zpow_pos (by norm_num) _))

theorem approx32_cast (x : F64) (hx : F64.inRange32 x = true) :
    F64.approx32 (f32_to_f64 (f64_to_f32 x)) x := by
  cases x with
  | nan => simp [F64.inRange32] at hx
  | fin q =>
    show |f32round q - q| ≤ 2 ^ (-24 : ℤ) * |q|
    by_cases hq : q = 0
    · subst hq
      simp [f32round]
    · exact f32round_rel_error q hq

/-- C1: for every joint set of size `N ≥ 1`, after a successful
`initialize` the State Buffer and the Command Buffer each contain
exactly `N` entries, and every entry of both buffers is NaN
("unknown"). -/
theorem init_allocates_unknown_buffers (jointNames : List String) (o : OvisHWInterface)
    (hN : 1 ≤ jointNames.length) (hs : o.hw_states_ = []) (hc : o.hw_commands_ = []) :
    (on_init true jointNames o).1 = CallbackReturn.SUCCESS ∧
    (on_init true jointNames o).2.hw_states_.length = jointNames.length ∧
    (on_init true jointNames o).2.hw_commands_.length = jointNames.length ∧
    (∀ x ∈ (on_init true jointNames o).2.hw_states_, x = F64.nan) ∧
    (∀ x ∈ (on_init true jointNames o).2.hw_commands_, x = F64.nan) := by
  refine ⟨rfl, ?_, ?_, ?_, ?_⟩ <;>
    simp [on_init, hs, hc, listResize_nil]

/-- Witness for C1: the one-joint instantiation. -/
theorem init_allocates_unknown_buffers_witness :
    (on_init true ["a"] ⟨[], [], [], none⟩).1 = CallbackReturn.SUCCESS ∧
    (on_init true ["a"] ⟨[], [], [], none⟩).2.hw_states_.length = (["a"] : List String).length ∧
    (on_init true ["a"] ⟨[], [], [], none⟩).2.hw_commands_.length = (["a"] : List String).length ∧
    (∀ x ∈ (on_init true ["a"] ⟨[], [], [], none⟩).2.hw_states_, x = F64.nan) ∧
    (∀ x ∈ (on_init true ["a"] ⟨[], [], [], none⟩).2.hw_commands_, x = F64.nan) :=
  init_allocates_unknown_buffers ["a"] ⟨[], [], [], none⟩ (by decide) rfl rfl

/-- C3: if opening the Communication Session during `activate ()` throws,
the callback returns `ERROR`, the Session Handle stays null (given it was
null before the call), the transition to `Configured` (staying put) is a
legal lifecycle step, and a subsequent `deactivate ()` is a safe no-op
(success, object unchanged). -/
theorem activate_failure_aborts (s : Sys)
    (h1 : s.phase = Phase.configured) (h2 : s.hw.comm = none) :
    (on_activate none s.hw).1 = CallbackReturn.ERROR ∧
    (on_activate none s.hw).2 = s.hw ∧
    (on_activate none s.hw).2.comm = none ∧
    Step s ⟨Phase.configured, (on_activate none s.hw).2, s.live⟩ ∧
    on_deactivate (on_activate none s.hw).2
      = (CallbackReturn.SUCCESS, (on_activate none s.hw).2) := by
  refine ⟨rfl, rfl, h2, Step.activate_fail s h1, ?_⟩
  show (CallbackReturn.SUCCESS, { s.hw with comm := none })
      = (CallbackReturn.SUCCESS, s.hw)
  rw [comm_none_update s.hw h2]

/-- Witness for C3: the concrete configured, session-less state. -/
theorem activate_failure_aborts_witness :
    (on_activate none sysConfigured.hw).1 = CallbackReturn.ERROR ∧
    (on_activate none sysConfigured.hw).2 = sysConfigured.hw ∧
    (on_activate none sysConfigured.hw).2.comm = none ∧
    Step sysConfigured ⟨Phase.configured, (on_activate none sysConfigured.hw).2, sysConfigured.live⟩ ∧
    on_deactivate (on_activate none sysConfigured.hw).2
      = (CallbackReturn.SUCCESS, (on_activate none sysConfigured.hw).2) :=
  activate_failure_aborts sysConfigured rfl rfl

/-- C4: in every reachable state of the lifecycle step relation the
Session Handle is non-null only while Active, the live-session set is
exactly the (at most one) owned session — so no session is ever leaked,
in particular teardown (the Finalized state) always leaves zero live
sessions, whatever state the object was in. -/
theorem session_lifecycle_invariant (s : Sys) (h : Reachable s) :
    (∀ i, s.hw.comm = some i → s.phase = Phase.active ∧ s.live = {i}) ∧
    (s.hw.comm = none → s.live = ∅) ∧
    s.live.card ≤ 1 ∧
    (s.phase = Phase.finalized → s.hw.comm = none ∧ s.live = ∅) := by
  have hx := sessionInv_reachable s h
  refine ⟨hx.1, hx.2, ?_, ?_⟩
  · cases hcomm : s.hw.comm with
    | none => rw [hx.2 hcomm]; simp
    | some i => rw [(hx.1 i hcomm).2]; simp
  · intro hf
    cases hcomm : s.hw.comm with
    | none => exact ⟨rfl, hx.2 hcomm⟩
    | some i =>
      have ha := (hx.1 i hcomm).1
      rw [hf] at ha
      exact absurd ha (by simp)

/-- Witness for C4: the activated state reached by
initialize; configure; activate on a fresh object. -/
theorem session_lifecycle_invariant_witness :
    (∀ i, sysActive.hw.comm = some i →
      sysActive.phase = Phase.active ∧ sysActive.live = {i}) ∧
    (sysActive.hw.comm = none → sysActive.live = ∅) ∧
    sysActive.live.card ≤ 1 ∧
    (sysActive.phase = Phase.finalized →
      sysActive.hw.comm = none ∧ sysActive.live = ∅) := by
  have h0 : Reachable Sys.start := Relation.ReflTransGen.refl
  have h1 := Relation.ReflTransGen.tail h0 (Step.init_ok Sys.start sixJoints rfl)
  have h2 := Relation.ReflTransGen.tail h1 (Step.configure _ rfl)
  have h3 : Reachable sysActive :=
    Relation.ReflTransGen.tail h2 (Step.activate_ok _ 0 rfl (by simp [Sys.start]))
  exact session_lifecycle_invariant sysActive h3

/-- C5: `deactivate ()` is idempotent and infallible: from every state it
returns success, the Session Handle is null afterwards, an owned session
is released from the live set, and running it twice produces the same
final state as running it once. -/
theorem deactivate_idempotent_infallible (s : Sys) :
    (on_deactivate s.hw).1 = CallbackReturn.SUCCESS ∧
    (deactivateS s).hw.comm = none ∧
    (∀ i, s.hw.comm = some i → (deactivateS s).live = s.live.erase i) ∧
    deactivateS (deactivateS s) = deactivateS s := by
  refine ⟨rfl, rfl, fun i hi => ?_, ?_⟩
  · simp [deactivateS, release, hi]
  · rfl

/-- Witness for C5: deactivating the concrete activated state. -/
theorem deactivate_idempotent_infallible_witness :
    (on_deactivate sysActive.hw).1 = CallbackReturn.SUCCESS ∧
    (deactivateS sysActive).hw.comm = none ∧
    (deactivateS sysActive).live = sysActive.live.erase 0 ∧
    deactivateS (deactivateS sysActive) = deactivateS sysActive := by
  have h := deactivate_idempotent_infallible sysActive
  exact ⟨h.1, h.2.1, h.2.2.1 0 rfl, h.2.2.2⟩

/-- C2: with a session present and well-formed buffers, a `read ()` whose
`getJointAngles` succeeds overwrites every State Buffer slot with the
device value widened to double, in joint order, and returns `OK`; a
`read ()` whose `getJointAngles` throws returns `ERROR` with the object
(in particular every State Buffer slot) exactly as before. -/
theorem read_overwrites_or_preserves (a : KinovaAngles) (o : OvisHWInterface)
    (hc : o.comm ≠ none)
    (hlen : o.hw_states_.length = o.joints.length)
    (h6 : o.joints.length ≤ 6) :
    read none o = some (return_type.ERROR, o) ∧
    ∃ o2, read (some a) o = some (return_type.OK, o2) ∧
      o2.joints = o.joints ∧ o2.hw_commands_ = o.hw_commands_ ∧ o2.comm = o.comm ∧
      o2.hw_states_.length = o.hw_states_.length ∧
      ∀ i, i < o.joints.length →
        o2.hw_states_.getD i F64.nan = f32_to_f64 (a.get i) := by
  obtain ⟨sid, hsid⟩ : ∃ sid, o.comm = some sid := by
    cases hco : o.comm with
    | none => exact absurd hco hc
    | some s => exact ⟨s, rfl⟩
  have hle : o.joints.length ≤ o.hw_states_.length := le_of_eq hlen.symm
  constructor
  · simp [read, hsid]
  · refine ⟨{ o with hw_states_ := overwriteStates a 0 o.joints.length o.hw_states_ },
      ?_, rfl, rfl, rfl, ?_, ?_⟩
    · simp [read, hsid, hle, h6]
    · exact length_overwriteStates a o.hw_states_ 0 o.joints.length
    · intro i hi
      have hgd := getD_overwriteStates a o.hw_states_ 0 i (by simpa using hi)
        (by rw [hlen]; exact hi)
      simpa using hgd

/-- Witness for C2: the six-joint object with an active session. -/
theorem read_overwrites_or_preserves_witness :
    read none objSix = some (return_type.ERROR, objSix) ∧
    ∃ o2, read (some freshAngles) objSix = some (return_type.OK, o2) ∧
      o2.joints = objSix.joints ∧ o2.hw_commands_ = objSix.hw_commands_ ∧
      o2.comm = objSix.comm ∧
      o2.hw_states_.length = objSix.hw_states_.length ∧
      ∀ i, i < objSix.joints.length →
        o2.hw_states_.getD i F64.nan = f32_to_f64 (freshAngles.get i) :=
  read_overwrites_or_preserves freshAngles objSix (by decide) rfl (by decide)

/-- C6: with the six joints `actuator_1 … actuator_6`, an active session
and Command Buffer `[0.1, 0.2, 0.3, 0.4, 0.5, 0.6]`, `write ()` passes
`setJointAngles` (its single invocation) a Native Angle Record whose six
slots are exactly those command values truncated to single precision, in
joint order, and returns `OK` when `setJointAngles` succeeds — whatever
the fresh record held beforehand. -/
theorem write_six_joint_scenario (init : KinovaAngles) :
    write true init objSix =
      some (return_type.OK, objSix,
        ⟨f64_to_f32 (F64.fin (1 / 10)), f64_to_f32 (F64.fin (1 / 5)),
         f64_to_f32 (F64.fin (3 / 10)), f64_to_f32 (F64.fin (2 / 5)),
         f64_to_f32 (F64.fin (1 / 2)), f64_to_f32 (F64.fin (3 / 5))⟩) := rfl

/-- C7: narrowing a 6-element sequence of doubles to the native record
and widening it back (`from_native (to_native v)`) reproduces each slot
within single-precision rounding tolerance — approximately, with
relative error at most `2 ^ (-24)` — for slots in the range where
binary32 rounding is defined. -/
theorem roundtrip_within_tolerance (v : List F64) (h6 : v.length = 6)
    (hr : ∀ x ∈ v, F64.inRange32 x = true) :
    (from_native (to_native v)).length = 6 ∧
    ∀ i, i < 6 →
      F64.approx32 ((from_native (to_native v)).getD i F64.nan) (v.getD i F64.nan) := by
  rcases v with _ | ⟨x0, v⟩
  · exact absurd h6 (by simp)
  rcases v with _ | ⟨x1, v⟩
  · exact absurd h6 (by simp)
  rcases v with _ | ⟨x2, v⟩
  · exact absurd h6 (by simp)
  rcases v with _ | ⟨x3, v⟩
  · exact absurd h6 (by simp)
  rcases v with _ | ⟨x4, v⟩
  · exact absurd h6 (by simp)
  rcases v with _ | ⟨x5, v⟩
  · exact absurd h6 (by simp)
  have hv : v = [] := by
    simpa using h6
  subst hv
  refine ⟨rfl, ?_⟩
  intro i hi
  match i, hi with
  | 0, _ => exact approx32_cast x0 (hr x0 (by simp))
  | 1, _ => exact approx32_cast x1 (hr x1 (by simp))
  | 2, _ => exact approx32_cast x2 (hr x2 (by simp))
  | 3, _ => exact approx32_cast x3 (hr x3 (by simp))
  | 4, _ => exact approx32_cast x4 (hr x4 (by simp))
  | 5, _ => exact approx32_cast x5 (hr x5 (by simp))

theorem inRange32_cmd6 : ∀ x ∈ cmd6, F64.inRange32 x = true := by
  have key : ∀ q : ℚ, 0 < q → 1 / 2 ^ 126 ≤ q → q ≤ 2 ^ 128 →
      F64.inRange32 (F64.fin q) = true := by
    intro q h0 hlo hhi
    simp only [F64.inRange32, decide_eq_true_eq]
    right
    rw [abs_of_pos h0]
    constructor
    · calc (2 : ℚ) ^ (-126 : ℤ) = 1 / 2 ^ 126 := by norm_num [zpow_neg]
        _ ≤ q := hlo
    · calc q ≤ 2 ^ 128 := hhi
        _ = (2 : ℚ) ^ (128 : ℤ) := by norm_num
  intro x hx
  simp [cmd6] at hx
  rcases hx with rfl | rfl | rfl | rfl | rfl | rfl <;>
    exact key _ (by norm_num) (by norm_num) (by norm_num)

/-- Witness for C7: the scenario command vector `[0.1, …, 0.6]`. -/
theorem roundtrip_within_tolerance_witness :
    (from_native (to_native cmd6)).length = 6 ∧
    ∀ i, i < 6 →
      F64.approx32 ((from_native (to_native cmd6)).getD i F64.nan) (cmd6.getD i F64.nan) :=
  roundtrip_within_tolerance cmd6 rfl inRange32_cmd6

/-- C8 counterexample: with a null Session Handle, `read ()` does NOT
propagate the null-session case as a failure result of the cycle — on the
concrete six-joint object with `comm = nullptr` there is no object state
it could return `ERROR` with, and likewise `write ()` produces no result
at all: the body dereferences the null handle. -/
theorem null_session_no_failure_result :
    (¬ ∃ o2, read (some freshAngles) nullObj = some (return_type.ERROR, o2)) ∧
    (¬ ∃ r, write true freshAngles nullObj = some r) ∧
    read (some freshAngles) nullObj = none ∧
    write true freshAngles nullObj = none := by
  refine ⟨?_, ?_, rfl, rfl⟩
  · rintro ⟨o2, h⟩
    simp [read, nullObj] at h
  · rintro ⟨r, h⟩
    rw [show write true freshAngles nullObj = none from rfl] at h
    exact Option.noConfusion h

/-- C8 amended: when `read ()` or `write ()` is invoked while the Session
Handle is null, the cycle body dereferences the null handle — undefined
behaviour with no defined result (`none`), not a failure return code; the
core has no guard for the null-session case. -/
theorem null_session_undefined (dev : Option KinovaAngles) (devOk : Bool)
    (init : KinovaAngles) (o : OvisHWInterface) (h : o.comm = none) :
    read dev o = none ∧ write devOk init o = none := by
  constructor
  · unfold read
    rw [h]
  · unfold write
    split
    · rw [h]
    · rfl

/-- Witness for amended C8: the concrete session-less six-joint object. -/
theorem null_session_undefined_witness :
    read none nullObj = none ∧ write false freshAngles nullObj = none :=
  null_session_undefined none false freshAngles nullObj rfl

/-- C9: for every joint set, `export_state_interfaces ()` and
`export_command_interfaces ()` each yield exactly one handle per joint,
and the `i`-th handle carries the `i`-th joint's name, is tagged
"position", and is bound to slot `i` of the State Buffer (respectively
the Command Buffer). -/
theorem export_interfaces_per_joint (o : OvisHWInterface)
    (hs : o.joints.length ≤ o.hw_states_.length)
    (hc : o.joints.length ≤ o.hw_commands_.length) :
    ∃ si ci,
      export_state_interfaces o = some si ∧
      export_command_interfaces o = some ci ∧
      si.length = o.joints.length ∧
      ci.length = o.joints.length ∧
      (∀ i, i < o.joints.length →
        si.getD i ⟨noName, noName, 0⟩
          = ⟨o.joints.getD i noName, HW_IF_POSITION, i⟩) ∧
      (∀ i, i < o.joints.length →
        ci.getD i ⟨noName, noName, 0⟩
          = ⟨o.joints.getD i noName, HW_IF_POSITION, i⟩) := by
  refine ⟨(List.range o.joints.length).map
      (fun i => ⟨o.joints.getD i noName, HW_IF_POSITION, i⟩),
    (List.range o.joints.length).map
      (fun i => ⟨o.joints.getD i noName, HW_IF_POSITION, i⟩),
    ?_, ?_, ?_, ?_, ?_, ?_⟩
  · unfold export_state_interfaces
    rw [if_pos hs]
  · unfold export_command_interfaces
    rw [if_pos hc]
  · simp
  · simp
  · intro i hi
    exact getD_map_range o.joints.length i hi _ _
  · intro i hi
    exact getD_map_range o.joints.length i hi _ _

/-- Witness for C9: the six-joint object. -/
theorem export_interfaces_per_joint_witness :
    ∃ si ci,
      export_state_interfaces objSix = some si ∧
      export_command_interfaces objSix = some ci ∧
      si.length = objSix.joints.length ∧
      ci.length = objSix.joints.length ∧
      (∀ i, i < objSix.joints.length →
        si.getD i ⟨noName, noName, 0⟩
          = ⟨objSix.joints.getD i noName, HW_IF_POSITION, i⟩) ∧
      (∀ i, i < objSix.joints.length →
        ci.getD i ⟨noName, noName, 0⟩
          = ⟨objSix.joints.getD i noName, HW_IF_POSITION, i⟩) :=
  export_interfaces_per_joint objSix (by decide) (by decide)

/-- C10 (implicit frame property): whenever `write ()` has a defined
outcome it leaves the whole object — in particular both the State Buffer
and the Command Buffer — unchanged, success or failure alike; and
whenever `read ()` has a defined outcome it leaves the Command Buffer
unchanged. -/
theorem cyclic_io_frame (devOk : Bool) (init : KinovaAngles)
    (dev : Option KinovaAngles) (o : OvisHWInterface) :
    (write devOk init o).elim True
      (fun r => r.2.1.hw_states_ = o.hw_states_ ∧
                r.2.1.hw_commands_ = o.hw_commands_) ∧
    (read dev o).elim True (fun r => r.2.hw_commands_ = o.hw_commands_) := by
  constructor
  · cases hw : write devOk init o with
    | none => trivial
    | some r =>
      have hfr := write_inv devOk init o r hw
      simp [Option.elim, hfr]
  · cases hrd : read dev o with
    | none => trivial
    | some r =>
      have hfr := (read_inv dev o r hrd).2.1
      simp [Option.elim, hfr]

end OvisControl
